import Mathlib

/-!
Verification of the NAS file-manager core (`src/server.js`): the path
resolver `safePath`, the name sanitizer (`sanitize-filename`), the size
formatter `formatSize`, and the filesystem-operation HTTP handlers
(list, move, delete, create-folder, rename).

The server runs Node on a POSIX host, so all path computations embed
`path.posix` semantics: paths are `/`-separated strings, `path.join`
concatenates non-empty arguments with `/` and normalizes, `path.normalize`
collapses `.`/`..`/duplicate separators, and `path.resolve(base, p)`
returns the normalized `p` when `p` is absolute and otherwise normalizes
`base ++ "/" ++ p` (with `base` = the absolute storage root).  Because the
join is immediately followed by `resolve`, which normalizes again, the
composition is embedded as a single left-to-right segment-stack pass over
(root segments ++ joined segments); this agrees with
`path.resolve(root, path.normalize(path.join(...)))` for an absolute root.

The filesystem is embedded as a finite association list from absolute
segment paths to entries; each handler is a function from the filesystem
state and its request fields to (new state, HTTP status, trace of
filesystem calls made).  The trace records the `fs.*` calls the handler
performed, in order, so that claims about "no filesystem call happens
before X" are statable.
-/

/-- JS `s.startsWith(p)`: `p` is a code-unit prefix of `s`. -/
def jsStartsWith (s p : String) : Bool :=
  p.data.isPrefixOf s.data

/-- Split a character list on a separator, like JS `String.prototype.split`
with a single-character separator (`"a/b".split("/") = ["a","b"]`,
`"".split("/") = [""]`). -/
def splitOnChar (sep : Char) : List Char → List (List Char)
  | [] => [[]]
  | c :: cs =>
    match splitOnChar sep cs with
    | [] => [[]]
    | g :: gs => if c = sep then [] :: g :: gs else (c :: g) :: gs

/-- The `/`-separated segments of a path string (empty segments kept,
as produced by duplicate or leading separators). -/
def splitSegs (s : String) : List String :=
  (splitOnChar '/' s.data).map String.mk

/-- Node `path.posix.join` accumulation: non-empty arguments joined by `/`. -/
def joinSep : List String → String
  | [] => ""
  | [s] => s
  | s :: rest => s ++ "/" ++ joinSep rest

/-- One step of POSIX path normalization over an absolute segment stack:
`""` and `"."` are dropped, `".."` pops the stack (a `".."` at the root is
discarded, as `path.resolve` does for absolute paths), and any other
segment is pushed. -/
def normStep (acc : List String) (seg : String) : List String :=
  if seg = "" ∨ seg = "." then acc
  else if seg = ".." then acc.dropLast
  else acc ++ [seg]

/-- The segment list of
`path.resolve(STORAGE_DIR, path.normalize(path.join(...paths)))`:
join the non-empty arguments with `/`; if the joined path is absolute it
replaces the root, otherwise it is resolved underneath the root; then run
the normalization stack over all segments. -/
def resolveSegs (root : String) (ps : List String) : List String :=
  let args := ps.filter (fun p => p ≠ "")
  let joined := joinSep args
  let allSegs :=
    if jsStartsWith joined "/" then splitSegs joined
    else splitSegs root ++ splitSegs joined
  allSegs.foldl normStep []

/-- Render an absolute segment list as a path string (`[] ↦ "/"`). -/
def segsToAbs (segs : List String) : String :=
  "/" ++ joinSep segs

/-- Node `path.resolve(STORAGE_DIR, path.normalize(path.join(...paths)))` as a
string. -/
def resolvePath (root : String) (ps : List String) : String :=
  segsToAbs (resolveSegs root ps)

/-- Function `safePath(...paths)` from `src/server.js` lines 91–99: resolve the
joined, normalized path against `STORAGE_DIR` and accept exactly when the
resolved string `startsWith` the raw `STORAGE_DIR` string, otherwise throw
`"Path traversal attempt detected"`. -/
def safePath (root : String) (ps : List String) : Except String String :=
  let resolvedPath := resolvePath root ps
  if jsStartsWith resolvedPath root then .ok resolvedPath
  else .error "Path traversal attempt detected"

/-- The non-empty segments of an (already resolved, absolute) path
string; used to key the filesystem model. -/
def pathSegs (s : String) : List String :=
  (splitSegs s).filter (fun x => x ≠ "")

/-- Node `path.posix.basename` of a resolved absolute path: its last segment,
or `""` for the root `/`. -/
def jsBasename (s : String) : String :=
  (pathSegs s).getLast?.getD ""

/-- Node `path.posix.dirname` of a raw path string (the scan from the end:
trailing separators beyond index 0 ignored, then everything before the
last separator; no separator yields `"."`, only a root separator yields
`"/"`, a separator at index 1 after a root separator yields `"//"`). -/
def jsDirname (p : String) : String :=
  match p.data with
  | [] => "."
  | c0 :: tl =>
    let rest := (tl.reverse.dropWhile (fun c => c = '/')).dropWhile (fun c => c ≠ '/')
    match rest with
    | [] => if c0 = '/' then "/" else "."
    | _ :: rest3 =>
      if c0 = '/' ∧ rest3 = [] then "//"
      else String.mk (c0 :: rest3.reverse)

-- A small check that the resolver embedding behaves like `path.posix`
-- on representative inputs.
example : resolvePath "/storage" ["a/b/../c"] = "/storage/a/c" := by decide
example : resolvePath "/storage" [""] = "/storage" := by decide
example : resolvePath "/storage" ["/etc/passwd"] = "/etc/passwd" := by decide
example : resolvePath "/storage" ["../../x"] = "/x" := by decide
example : resolvePath "/storage" ["docs", "f.txt"] = "/storage/docs/f.txt" := by decide
example : jsDirname "docs/report.txt" = "docs" := by decide
example : jsDirname "report.txt" = "." := by decide
example : jsDirname "/a" = "/" := by decide
example : jsBasename "/storage/a.txt" = "a.txt" := by decide

/-!
## The name sanitizer

`sanitize-filename` (used by the upload, create-folder and rename
handlers) applies, in order: removal of the illegal characters
`/ ? < > \ : * | "`, removal of control characters (U+0000–U+001F and
U+0080–U+009F), replacement of an all-dots name by the empty string
(`^\.+$`), replacement of a Windows reserved device name
(`^(con|prn|aux|nul|com[0-9]|lpt[0-9])(\..*)?$`, case-insensitive) by the
empty string, removal of trailing dots and spaces, and truncation to 255
UTF-8 bytes.  The replacement string is the default `""`.
-/

/-- The characters removed by the `illegalRe` class of sanitize-filename. -/
def illegalChars : List Char := ['/', '?', '<', '>', '\\', ':', '*', '|', '"']

/-- Class `controlRe` of the sanitize-filename package. -/
def isCtrlChar (c : Char) : Bool :=
  c.val ≤ 0x1f ∨ (0x80 ≤ c.val ∧ c.val ≤ 0x9f)

/-- The Windows reserved device names matched by `windowsReservedRe`. -/
def winReservedNames : List String :=
  ["con", "prn", "aux", "nul"]
    ++ (List.range 10).map (fun d => "com" ++ String.mk [Char.ofNat (48 + d)])
    ++ (List.range 10).map (fun d => "lpt" ++ String.mk [Char.ofNat (48 + d)])

/-- Whether `windowsReservedRe` matches the whole string: one of the
reserved names, optionally followed by a dot and anything, ignoring case. -/
def isWinReserved (s : String) : Bool :=
  let lower := String.mk (s.data.map Char.toLower)
  winReservedNames.any (fun w => lower = w ∨ (w.data ++ ['.']).isPrefixOf lower.data)

/-- Truncate a character list to at most `n` UTF-8 bytes
(`truncate-utf8-bytes`, with the 255-byte limit). -/
def utf8Trunc (n : Nat) : List Char → List Char
  | [] => []
  | c :: cs => if c.utf8Size ≤ n then c :: utf8Trunc (n - c.utf8Size) cs else []

/-- The `sanitize` function of the `sanitize-filename` package with the
default empty replacement, as called by `src/server.js`. -/
def sanitize (s : String) : String :=
  let s1 := s.data.filter (fun c => ¬ c ∈ illegalChars)
  let s2 := s1.filter (fun c => ¬ isCtrlChar c)
  let s3 := if s2 ≠ [] ∧ s2.all (fun c => c = '.') then [] else s2
  let s4 := if isWinReserved (String.mk s3) then [] else s3
  let s5 := (s4.reverse.dropWhile (fun c => c = '.' ∨ c = ' ')).reverse
  String.mk (utf8Trunc 255 s5)

example : sanitize "../../etc" = "....etc" := by decide
example : sanitize "/" = "" := by decide
example : sanitize ".." = "" := by decide
example : sanitize "report.txt" = "report.txt" := by decide
example : sanitize "CON" = "" := by decide
example : sanitize "a<b>.txt" = "ab.txt" := by decide

/-!
## The size formatter

`formatSize(bytes)` (`src/server.js` lines 106–117) divides an IEEE-754
double by 1024 while it stays `≥ 1024` and a larger unit remains, then
prints `size.toFixed(1)` and the unit.  Division of a double by 1024 only
shifts the exponent, so for byte counts below 2^53 every intermediate
`size` is exactly `bytes / 1024^unitIndex`; the embedding carries that
exact rational as a numerator/denominator pair of naturals.  JS
`toFixed(1)` picks the integer `n` minimising `|n/10 - size|`, taking the
larger `n` on ties, which for non-negative values is `⌊10·size + 1/2⌋`.
-/

/-- The exact value of the `size` variable: `num / den` with `den` a power
of 1024. -/
structure JsSize where
  num : Nat
  den : Nat
deriving DecidableEq, Repr

/-- Array `units` from `formatSize`. -/
def sizeUnits : List String := ["B", "KB", "MB", "GB", "TB"]

/-- Render a natural number in decimal (what JS number-to-string does for
the integral parts produced by `toFixed`). -/
def natToStrAux : Nat → Nat → List Char
  | 0, _ => []
  | fuel + 1, n =>
    if n < 10 then [Char.ofNat (48 + n)]
    else natToStrAux fuel (n / 10) ++ [Char.ofNat (48 + n % 10)]

/-- Decimal rendering of a natural number. -/
def natToStr (n : Nat) : String := String.mk (natToStrAux (n + 1) n)

/-- JS `size.toFixed(1)` on the exact non-negative value `num/den`:
`n = ⌊10·size + 1/2⌋ = ⌊(20·num + den) / (2·den)⌋`, printed as
`n/10 "." n%10`. -/
def jsToFixed1 (s : JsSize) : String :=
  let n := (20 * s.num + s.den) / (2 * s.den)
  natToStr (n / 10) ++ "." ++ natToStr (n % 10)

/-- The `while (size >= 1024 && unitIndex < units.length - 1)` loop of
`formatSize`; the fuel argument only bounds the recursion and `5` fuel is
never exhausted since `unitIndex` grows past `4` first. -/
def formatSizeLoop : Nat → JsSize → Nat → JsSize × Nat
  | 0, size, u => (size, u)
  | fuel + 1, size, u =>
    if 1024 * size.den ≤ size.num ∧ u < sizeUnits.length - 1 then
      formatSizeLoop fuel ⟨size.num, size.den * 1024⟩ (u + 1)
    else (size, u)

/-- Function `formatSize(bytes)` from `src/server.js` lines 106–117. -/
def formatSize (bytes : Nat) : String :=
  let r := formatSizeLoop 5 ⟨bytes, 1⟩ 0
  jsToFixed1 r.1 ++ " " ++ (sizeUnits.getD r.2 "")

example : formatSize 1536 = "1.5 KB" := by decide
example : formatSize 0 = "0.0 B" := by decide
example : formatSize 1023 = "1023.0 B" := by decide
example : formatSize 1048576 = "1.0 MB" := by decide
example : formatSize (1024 * 1024 * 1024 * 1024 * 5000) = "5000.0 TB" := by decide

/-!
## The filesystem model

The storage tree is a finite map from absolute segment paths to entries
(directories, or files with a size and a modification timestamp).  The
traces of `fs.*` calls by the handlers are recorded in a trace so that the order of
filesystem access relative to path resolution is part of the model.
-/

/-- A filesystem entry: a directory, or a file with `size` bytes and an
abstract `mtime` timestamp (rendered host-locally by `toLocaleString`,
which is not modelled beyond the raw timestamp). -/
inductive Entry where
  | dir : Entry
  | file (size : Nat) (mtime : Nat) : Entry
deriving DecidableEq, Repr

/-- Whether an entry is a directory (`stats.isDirectory()`). -/
def Entry.isDir : Entry → Bool
  | .dir => true
  | .file _ _ => false

/-- An absolute path as its non-empty segment list. -/
abbrev FPath := List String

/-- The filesystem state: an association list from absolute segment paths
to entries. -/
structure FS where
  entries : List (FPath × Entry)
deriving DecidableEq, Repr

/-- Call `fs.stat`: the entry at a path, if any. -/
def FS.stat (fs : FS) (p : FPath) : Option Entry :=
  (fs.entries.find? (fun e => e.1 = p)).map (fun e => e.2)

/-- Call `existsSync`. -/
def FS.exstat (fs : FS) (p : FPath) : Bool :=
  (fs.stat p).isSome

/-- Call `fs.readdir`: the names of the immediate children of a directory, or
`none` when the path is missing or not a directory. -/
def FS.readdir (fs : FS) (p : FPath) : Option (List String) :=
  match fs.stat p with
  | some .dir =>
    some (fs.entries.filterMap (fun e => if e.1.dropLast = p then e.1.getLast? else none))
  | _ => none

/-- Call `fs.mkdir(p)` with the recursive option: fails when some prefix of `p` is
an existing non-directory, otherwise inserts every missing prefix of `p`
as a directory (the filesystem root `[]` is never created). -/
def FS.mkdirRec (fs : FS) (p : FPath) : Except String FS :=
  if (List.range (p.length + 1)).all
      (fun k => match fs.stat (p.take k) with | some e => e.isDir | none => true) then
    .ok ⟨((List.range (p.length + 1)).filterMap
      (fun k =>
        if fs.stat (p.take k) = none ∧ p.take k ≠ [] then some (p.take k, Entry.dir)
        else none)) ++ fs.entries⟩
  else .error "ENOTDIR"

/-- Call `fs.rm(p)` with the recursive option: remove the entry and every
descendant. -/
def FS.rmRec (fs : FS) (p : FPath) : FS :=
  ⟨fs.entries.filter (fun e => ¬ p.isPrefixOf e.1)⟩

/-- Call `fs.unlink`: remove a single file entry. -/
def FS.unlink (fs : FS) (p : FPath) : FS :=
  ⟨fs.entries.filter (fun e => e.1 ≠ p)⟩

/-- Call `fs.rename(src, dst)` (POSIX rename): fails when the source is
missing, when the destination lies inside the source subtree, when the
parent of the destination is not an existing directory, or when the existing
kind of the existing destination is incompatible (file over directory, directory over
file, or directory over a non-empty directory); otherwise the source
subtree is re-rooted at the destination, replacing any compatible
existing destination. -/
def FS.rename (fs : FS) (src dst : FPath) : Except String FS :=
  match fs.stat src with
  | none => .error "ENOENT"
  | some se =>
    if src = dst then .ok fs
    else if src.isPrefixOf dst then .error "EINVAL"
    else if ¬ (match fs.stat dst.dropLast with
               | some e => e.isDir
               | none => decide (dst.dropLast = []) : Bool) then
      .error "ENOENT"
    else
      match fs.stat dst with
      | some de =>
        if se.isDir ∧ ¬ de.isDir then .error "ENOTDIR"
        else if ¬ se.isDir ∧ de.isDir then .error "EISDIR"
        else if se.isDir ∧ de.isDir ∧ (fs.readdir dst).getD [] ≠ [] then .error "ENOTEMPTY"
        else .ok ⟨fs.entries.filterMap (fun e =>
          if src.isPrefixOf e.1 then some (dst ++ e.1.drop src.length, e.2)
          else if dst.isPrefixOf e.1 then none
          else some e)⟩
      | none => .ok ⟨fs.entries.filterMap (fun e =>
          if src.isPrefixOf e.1 then some (dst ++ e.1.drop src.length, e.2)
          else some e)⟩

/-- One recorded filesystem call. -/
inductive FSCall where
  | stat (p : FPath)
  | readdir (p : FPath)
  | exstat (p : FPath)
  | mkdir (p : FPath)
  | rm (p : FPath)
  | unlink (p : FPath)
  | rename (src dst : FPath)
deriving DecidableEq, Repr

/-- Whether a recorded call can change the filesystem state. -/
def FSCall.mutates : FSCall → Bool
  | .stat _ | .readdir _ | .exstat _ => false
  | _ => true

abbrev Trace := List FSCall

/-- The result of a mutating handler: new filesystem state, HTTP status
code, and the trace of filesystem calls performed. -/
abbrev HRes := FS × Nat × Trace

/-!
## Directory listing (`GET /`, lines 145–171) and `getItemInfo`
-/

/-- The record built by `getItemInfo` (lines 125–136): name, kind string,
human-readable size (`null` for directories), modification timestamp
(rendered host-locally in the program; kept abstract here), and the
location relative to the storage root. -/
structure ItemInfo where
  name : String
  type : String
  size : Option String
  modified : Nat
  path : String
deriving DecidableEq, Repr

/-- Node `path.relative(STORAGE_DIR, itemPath)` for an item below the root:
the segments after those of the root, joined by `/`. -/
def relPath (root : String) (itemSegs : FPath) : String :=
  joinSep (itemSegs.drop (pathSegs root).length)

/-- Function `getItemInfo(itemPath, baseName)` applied to the stat result `e`. -/
def getItemInfo (root : String) (itemSegs : FPath) (baseName : String) (e : Entry) : ItemInfo :=
  { name := baseName
    type := if e.isDir then "directory" else "file"
    size := if e.isDir then none else
      match e with | .dir => none | .file sz _ => some (formatSize sz)
    modified := match e with | .dir => 0 | .file _ mt => mt
    path := relPath root itemSegs }

/-- The `for … of await fs.readdir` loop (lines 151–154): stat each child
in order and build its `ItemInfo`; the first failing stat aborts the
whole listing (the exception reaches the catch block of the handler). -/
def buildItems (root : String) (curSegs : FPath) (statFn : FPath → Option Entry) :
    List String → Option (List ItemInfo)
  | [] => some []
  | n :: ns =>
    match statFn (curSegs ++ [n]), buildItems root curSegs statFn ns with
    | some e, some items => some (getItemInfo root (curSegs ++ [n]) n e :: items)
    | _, _ => none

/-- The comparator passed to `items.sort` (lines 156–161), with
`localeCompare` abstracted as `lc`. -/
def itemCmp (lc : String → String → Int) (a b : ItemInfo) : Int :=
  if a.type = "directory" ∧ b.type ≠ "directory" then -1
  else if a.type ≠ "directory" ∧ b.type = "directory" then 1
  else lc a.name b.name

/-- The non-strict order induced by the comparator. -/
def itemLE (lc : String → String → Int) (a b : ItemInfo) : Bool :=
  itemCmp lc a b ≤ 0

/-- Stable insertion of `a` into `l`: `a` goes before the first element
it compares strictly below. -/
def jsInsert (le : α → α → Bool) (a : α) : List α → List α
  | [] => [a]
  | b :: bs => if le a b ∧ ¬ le b a then a :: b :: bs else b :: jsInsert le a bs

/-- JS `Array.prototype.sort` with a consistent comparator: a stable sort
producing an order sorted with respect to the comparator (embedded as
insertion sort). -/
def jsSort (le : α → α → Bool) (l : List α) : List α :=
  l.foldr (jsInsert le) []

/-- The `GET /` handler with the `fs.readdir` / `fs.stat` access points
abstracted, so that a child disappearing between the directory read and
its stat is expressible.  Returns the sorted listing or the HTTP error
status. -/
def listCore (root : String) (lc : String → String → Int) (requestPath : String)
    (readdirFn : FPath → Option (List String)) (statFn : FPath → Option Entry) :
    Except Nat (List ItemInfo) :=
  match safePath root [requestPath] with
  | .error _ => .error 500
  | .ok cur =>
    match readdirFn (pathSegs cur) with
    | none => .error 500
    | some names =>
      match buildItems root (pathSegs cur) statFn names with
      | none => .error 500
      | some items => .ok (jsSort (itemLE lc) items)

/-- The `GET /` handler (lines 145–171) against a filesystem state. -/
def listHandler (root : String) (fs : FS) (lc : String → String → Int)
    (requestPath : String) : Except Nat (List ItemInfo) :=
  listCore root lc requestPath fs.readdir fs.stat

/-!
## The mutating handlers
-/

/-- The `POST /move` handler (lines 256–296).  Field order and the
position of each filesystem call follow the source: resolve `source`,
stat it, compute its basename, resolve `target ++ basename`, resolve and
stat `target`, require a directory, reject an existing destination with
409, then rename.  A thrown `"Path traversal …"` maps to 403 in the
`catch`; other failures map to 400/500 as in the source. -/
def moveHandler (root : String) (fs : FS) (source target : String) : HRes :=
  if source = "" ∨ target = "" then (fs, 400, [])
  else
    match safePath root [source] with
    | .error _ => (fs, 403, [])
    | .ok sourcePath =>
      let s := pathSegs sourcePath
      match fs.stat s with
      | none => (fs, 500, [.stat s])
      | some _ =>
        let sourceBasename := jsBasename sourcePath
        match safePath root [target, sourceBasename] with
        | .error _ => (fs, 403, [.stat s])
        | .ok targetPath =>
          match safePath root [target] with
          | .error _ => (fs, 403, [.stat s])
          | .ok targetDirPath =>
            let td := pathSegs targetDirPath
            match fs.stat td with
            | none => (fs, 500, [.stat s, .stat td])
            | some te =>
              if ¬ te.isDir then (fs, 400, [.stat s, .stat td])
              else
                let t := pathSegs targetPath
                if fs.exstat t then (fs, 409, [.stat s, .stat td, .exstat t])
                else
                  match fs.rename s t with
                  | .ok fs2 => (fs2, 200, [.stat s, .stat td, .exstat t, .rename s t])
                  | .error _ => (fs, 500, [.stat s, .stat td, .exstat t, .rename s t])

/-- The `POST /delete` handler (lines 299–315): resolve, stat, then
`fs.rm` recursively for a directory or `fs.unlink` for a file; any thrown
error (including the thrown traversal error) maps to 500. -/
def deleteHandler (root : String) (fs : FS) (pathArg : String) : HRes :=
  match safePath root [pathArg] with
  | .error _ => (fs, 500, [])
  | .ok itemPath =>
    let s := pathSegs itemPath
    match fs.stat s with
    | none => (fs, 500, [.stat s])
    | some e =>
      if e.isDir then (fs.rmRec s, 200, [.stat s, .rm s])
      else (fs.unlink s, 200, [.stat s, .unlink s])

/-- The `POST /create-folder` handler (lines 318–347): missing name →
400, empty-after-sanitize name → 400, traversal → 403, existing target →
409, otherwise a recursive `fs.mkdir`. -/
def createFolderHandler (root : String) (fs : FS) (name parentPath : String) : HRes :=
  if name = "" then (fs, 400, [])
  else
    let sanitizedName := sanitize name
    if sanitizedName = "" then (fs, 400, [])
    else
      match safePath root [parentPath, sanitizedName] with
      | .error _ => (fs, 403, [])
      | .ok folderPath =>
        let s := pathSegs folderPath
        if fs.exstat s then (fs, 409, [.exstat s])
        else
          match fs.mkdirRec s with
          | .ok fs2 => (fs2, 200, [.exstat s, .mkdir s])
          | .error _ => (fs, 500, [.exstat s, .mkdir s])

/-- The `POST /rename` handler (lines 350–363): sanitize the new name
(with no emptiness check), resolve the old path and the sanitized name
against the parent of the old path, then `fs.rename`; every thrown error maps
to 500. -/
def renameHandler (root : String) (fs : FS) (oldPath newName : String) : HRes :=
  let sanitizedName := sanitize newName
  match safePath root [oldPath] with
  | .error _ => (fs, 500, [])
  | .ok oldFullPath =>
    match safePath root [jsDirname oldPath, sanitizedName] with
    | .error _ => (fs, 500, [])
    | .ok newFullPath =>
      let o := pathSegs oldFullPath
      let n := pathSegs newFullPath
      match fs.rename o n with
      | .ok fs2 => (fs2, 200, [.rename o n])
      | .error _ => (fs, 500, [.rename o n])

/-!
## Helper lemmas
-/

/-- Every string starts with itself. -/
theorem jsStartsWith_self (s : String) : jsStartsWith s s = true := by
  simp [jsStartsWith, List.isPrefixOf_iff_prefix]

/-- Starting with `p ++ "/"` implies starting with `p`. -/
theorem jsStartsWith_of_slash (s p : String)
    (h : jsStartsWith s (p ++ "/") = true) : jsStartsWith s p = true := by
  simp only [jsStartsWith, List.isPrefixOf_iff_prefix, String.data_append] at h ⊢
  exact (List.prefix_append p.data "/".data).trans h

/-!
## C1 — the containment check of the resolver
-/

/-- C1: the claim states that `safePath` accepts exactly when the
resolved path is `StorageRoot` or extends it on a path-segment boundary,
and in particular that every `../` input escaping the root — including
into a sibling directory such as `/storage2` beside `/storage` — fails
with a `TraversalError`.  The code instead checks only that the resolved
string starts with the raw `STORAGE_DIR` string, so with the root
`/storage` the escaping input `../storage2/secret` resolves to
`/storage2/secret`, which is neither the root nor below it on a segment
boundary, yet is accepted.  This contradicts both the claim and the
stated purpose of `safePath` (ensuring paths cannot escape the storage
directory): a code bug. -/
theorem C1_sibling_prefix_escape_accepted :
    safePath "/storage" ["../storage2/secret"] = .ok "/storage2/secret"
    ∧ "/storage2/secret" ≠ "/storage"
    ∧ jsStartsWith "/storage2/secret" ("/storage" ++ "/") = false :=
  ⟨rfl, by decide, by decide⟩

/-!
## C2 — inside paths are accepted
-/

/-- C2: for every caller-supplied path list whose join-and-normalization
resolves to a location inside the storage root — the root itself
(in particular the empty string resolves there) or a segment-boundary
descendant of it — `safePath` succeeds and returns the resolved absolute
path, which has the root as prefix. -/
theorem C2_inside_accepted (root : String) (ps : List String)
    (h : resolvePath root ps = root
         ∨ jsStartsWith (resolvePath root ps) (root ++ "/") = true) :
    ∃ r, safePath root ps = .ok r ∧ jsStartsWith r root = true := by
  have hpre : jsStartsWith (resolvePath root ps) root = true := by
    rcases h with h | h
    · rw [h]; exact jsStartsWith_self root
    · exact jsStartsWith_of_slash _ _ h
  exact ⟨resolvePath root ps, by simp [safePath, hpre], hpre⟩

/-- Witness for C2 at the root itself (empty relative path) and at a
proper descendant. -/
theorem C2_inside_accepted_witness :
    (resolvePath "/storage" [""] = "/storage"
      ∨ jsStartsWith (resolvePath "/storage" [""]) ("/storage" ++ "/") = true)
    ∧ (∃ r, safePath "/storage" [""] = .ok r ∧ jsStartsWith r "/storage" = true)
    ∧ (∃ r, safePath "/storage" ["docs/a.txt"] = .ok r ∧ jsStartsWith r "/storage" = true) :=
  ⟨Or.inl (by decide),
   C2_inside_accepted "/storage" [""] (Or.inl (by decide)),
   C2_inside_accepted "/storage" ["docs/a.txt"] (Or.inr (by decide))⟩

/-!
## C5 — CreateDirectory and the name "../../etc"
-/

/-- A storage tree holding only the root directory. -/
def fsRootOnly : FS := ⟨[([], .dir), (["storage"], .dir)]⟩

/-- C5 counterexample: the claim says CreateDirectory with the name
`"../../etc"` fails with InvalidName and creates no directory.  In the
code, `sanitize` merely strips the `/` separators, leaving the non-empty
name `"....etc"`, so the handler returns 200 and creates the directory
`"....etc"` inside the root. -/
theorem C5_counterexample :
    sanitize "../../etc" = "....etc"
    ∧ createFolderHandler "/storage" fsRootOnly "../../etc" ""
        = (⟨[(["storage", "....etc"], .dir), ([], .dir), (["storage"], .dir)]⟩, 200,
           [.exstat ["storage", "....etc"], .mkdir ["storage", "....etc"]])
    ∧ (createFolderHandler "/storage" fsRootOnly "../../etc" "").1.stat
        ["storage", "....etc"] = some .dir := by
  refine ⟨by decide, by decide, by decide⟩

/-- Membership survives the byte-bounded truncation backwards. -/
theorem mem_of_mem_utf8Trunc (c : Char) (n : Nat) (l : List Char)
    (h : c ∈ utf8Trunc n l) : c ∈ l := by
  induction l generalizing n with
  | nil => cases h
  | cons a l ih =>
    unfold utf8Trunc at h
    by_cases hs : a.utf8Size ≤ n
    · rw [if_pos hs] at h
      rcases List.mem_cons.mp h with rfl | h2
      · exact List.mem_cons_self _ _
      · exact List.mem_cons_of_mem _ (ih _ h2)
    · rw [if_neg hs] at h
      cases h

/-- The sanitizer strips separator content: no sanitized name ever
contains a path separator. -/
theorem sanitize_no_separator (s : String) (c : Char)
    (hc : c ∈ (sanitize s).data) : c ≠ '/' := by
  intro hceq
  subst hceq
  unfold sanitize at hc
  dsimp only at hc
  have h5 := mem_of_mem_utf8Trunc '/' 255 _ hc
  rw [List.mem_reverse] at h5
  have h4 := (List.dropWhile_sublist _).subset h5
  rw [List.mem_reverse] at h4
  split at h4
  · cases h4
  · split at h4
    · cases h4
    · have h1 := (List.mem_filter.mp ((List.mem_filter.mp h4).1)).2
      simp [illegalChars] at h1

/-- C5 amended: CreateDirectory sanitizes the supplied name by stripping
separator (and other unsafe) characters rather than rejecting the
request: the sanitized name never contains a path separator, and only a
name that sanitizes to empty fails with an invalid-name 400 before any
filesystem call.  `"../../etc"` sanitizes to the non-empty `"....etc"`,
so that request does not fail with InvalidName: it returns 200 and
creates a single directory named `"....etc"` under the resolved parent
(here, directly inside the root). -/
theorem C5_sanitize_behaviour (root : String) (fs : FS) (name parentPath : String) :
    (sanitize name = "" → createFolderHandler root fs name parentPath = (fs, 400, []))
    ∧ sanitize "../../etc" = "....etc"
    ∧ (∀ c ∈ (sanitize name).data, c ≠ '/')
    ∧ (createFolderHandler "/storage" fsRootOnly "../../etc" "").2.1 = 200
    ∧ (createFolderHandler "/storage" fsRootOnly "../../etc" "").1.stat
        ["storage", "....etc"] = some .dir := by
  refine ⟨?_, by decide, fun c hc => sanitize_no_separator name c hc, by decide, by decide⟩
  intro h
  by_cases hn : name = ""
  · simp [createFolderHandler, hn]
  · simp [createFolderHandler, hn, h]

/-- Witness for C5: the name `".."` sanitizes to empty and is rejected
with 400 and no filesystem call; the sanitized form of `"a/b"` keeps its
letters but not the separator. -/
theorem C5_sanitize_behaviour_witness :
    sanitize ".." = ""
    ∧ createFolderHandler "/storage" fsRootOnly ".." "" = (fsRootOnly, 400, [])
    ∧ (('a' : Char) ∈ (sanitize "a/b").data)
    ∧ ('a' : Char) ≠ '/' :=
  ⟨by decide, (C5_sanitize_behaviour "/storage" fsRootOnly ".." "").1 (by decide),
   by decide,
   (C5_sanitize_behaviour "/storage" fsRootOnly "a/b" "").2.2.1 'a' (by decide)⟩

/-!
## C6 — the empty-after-sanitize check
-/

/-- A storage tree with `docs/report.txt` under the root. -/
def fsC6 : FS :=
  ⟨[([], .dir), (["storage"], .dir), (["storage", "docs"], .dir),
    (["storage", "docs", "report.txt"], .file 10 0)]⟩

/-- C6 counterexample: the claim says every operation taking a
user-supplied name fails with an invalid-name error before any
filesystem call when the name sanitizes to empty.  CreateDirectory does,
but Rename has no such check: renaming `docs/report.txt` to `"/"` (which
sanitizes to the empty string) resolves the new path to the parent
directory `docs` itself and attempts the rename — a filesystem call —
which fails and is reported as a generic 500, not an invalid-name
error. -/
theorem C6_counterexample :
    sanitize "/" = ""
    ∧ renameHandler "/storage" fsC6 "docs/report.txt" "/"
        = (fsC6, 500, [.rename ["storage", "docs", "report.txt"] ["storage", "docs"]])
    ∧ (renameHandler "/storage" fsC6 "docs/report.txt" "/").2.2 ≠ [] := by
  refine ⟨by decide, by decide, by decide⟩

/-- C6 amended: CreateDirectory rejects an empty-after-sanitize name with
an invalid-name 400 before any filesystem call, but Rename performs no
such check: whenever both of its path resolutions succeed it always
reaches `fs.rename`, so an empty sanitized name leads to an attempted
rename onto the parent directory of the old path instead of an
invalid-name failure. -/
theorem C6_empty_name_checks :
    (∀ (root : String) (fs : FS) (name parentPath : String),
      sanitize name = "" → createFolderHandler root fs name parentPath = (fs, 400, []))
    ∧ (∀ (root : String) (fs : FS) (oldPath newName o n : String),
      safePath root [oldPath] = .ok o →
      safePath root [jsDirname oldPath, sanitize newName] = .ok n →
      (renameHandler root fs oldPath newName).2.2
        = [.rename (pathSegs o) (pathSegs n)]) := by
  constructor
  · intro root fs name parentPath h
    by_cases hn : name = ""
    · simp [createFolderHandler, hn]
    · simp [createFolderHandler, hn, h]
  · intro root fs oldPath newName o n h1 h2
    cases hr : fs.rename (pathSegs o) (pathSegs n) <;>
      simp [renameHandler, h1, h2, hr]

/-- Witness for C6: the concrete rename of `docs/report.txt` to the
empty-sanitizing name `"/"` reaches the filesystem rename call, while
CreateDirectory with the empty-sanitizing name `".."` stops at 400. -/
theorem C6_empty_name_checks_witness :
    createFolderHandler "/storage" fsC6 ".." "" = (fsC6, 400, [])
    ∧ (renameHandler "/storage" fsC6 "docs/report.txt" "/").2.2
        = [.rename (pathSegs "/storage/docs/report.txt") (pathSegs "/storage/docs")] :=
  ⟨C6_empty_name_checks.1 "/storage" fsC6 ".." "" (by decide),
   C6_empty_name_checks.2 "/storage" fsC6 "docs/report.txt" "/"
     "/storage/docs/report.txt" "/storage/docs" rfl rfl⟩

/-!
## C3 — resolution failure and filesystem access
-/

/-- A storage tree with a single file `a` under the root. -/
def fsC3 : FS := ⟨[([], .dir), (["storage"], .dir), (["storage", "a"], .file 1 0)]⟩

/-- C3 counterexample: the claim says that whenever resolution of any
path argument fails, the operation terminates with the traversal error
before performing any filesystem call.  In the Move handler the source
is resolved and stat-ed before the target is resolved, so when only the
target escapes the root, a filesystem call (the stat of the source) has
already been performed by the time the traversal error is thrown: moving
the existing file `a` to target `../../x` yields 403 with a non-empty
call trace. -/
theorem C3_counterexample :
    safePath "/storage" ["../../x", jsBasename "/storage/a"]
      = .error "Path traversal attempt detected"
    ∧ moveHandler "/storage" fsC3 "a" "../../x" = (fsC3, 403, [.stat ["storage", "a"]])
    ∧ (moveHandler "/storage" fsC3 "a" "../../x").2.2 ≠ [] :=
  ⟨rfl, by decide, by decide⟩

/-- C3 amended: in every operation, a path-resolution failure
short-circuits the handler before any further filesystem access: the
filesystem state is returned unchanged and no mutating filesystem call
occurs.  When the first path argument fails to resolve, no filesystem
call at all has been made; only in Move can a failure of the later
target resolutions be preceded by the read-only stat of the
already-resolved source.  The resolver itself is a pure string
computation. -/
theorem C3_resolution_failure_no_mutation :
    (∀ (root : String) (fs : FS) (source target msg : String),
      source ≠ "" → target ≠ "" → safePath root [source] = .error msg →
      moveHandler root fs source target = (fs, 403, []))
    ∧ (∀ (root : String) (fs : FS) (source target sp msg : String) (es : Entry),
      source ≠ "" → target ≠ "" → safePath root [source] = .ok sp →
      fs.stat (pathSegs sp) = some es →
      safePath root [target, jsBasename sp] = .error msg →
      moveHandler root fs source target = (fs, 403, [.stat (pathSegs sp)]))
    ∧ (∀ (root : String) (fs : FS) (source target sp tp msg : String) (es : Entry),
      source ≠ "" → target ≠ "" → safePath root [source] = .ok sp →
      fs.stat (pathSegs sp) = some es →
      safePath root [target, jsBasename sp] = .ok tp →
      safePath root [target] = .error msg →
      moveHandler root fs source target = (fs, 403, [.stat (pathSegs sp)]))
    ∧ (∀ (root : String) (fs : FS) (pathArg msg : String),
      safePath root [pathArg] = .error msg →
      deleteHandler root fs pathArg = (fs, 500, []))
    ∧ (∀ (root : String) (fs : FS) (name parentPath msg : String),
      safePath root [parentPath, sanitize name] = .error msg →
      createFolderHandler root fs name parentPath = (fs, 400, [])
      ∨ createFolderHandler root fs name parentPath = (fs, 403, []))
    ∧ (∀ (root : String) (fs : FS) (oldPath newName msg : String),
      safePath root [oldPath] = .error msg →
      renameHandler root fs oldPath newName = (fs, 500, []))
    ∧ (∀ (root : String) (fs : FS) (oldPath newName op msg : String),
      safePath root [oldPath] = .ok op →
      safePath root [jsDirname oldPath, sanitize newName] = .error msg →
      renameHandler root fs oldPath newName = (fs, 500, []))
    ∧ (∀ (root : String) (fs : FS) (lc : String → String → Int) (rp msg : String),
      safePath root [rp] = .error msg →
      listHandler root fs lc rp = .error 500) := by
  refine ⟨?_, ?_, ?_, ?_, ?_, ?_, ?_, ?_⟩
  · intro root fs source target msg hs ht h1
    simp [moveHandler, hs, ht, h1]
  · intro root fs source target sp msg es hs ht h1 h2 h3
    simp [moveHandler, hs, ht, h1, h2, h3]
  · intro root fs source target sp tp msg es hs ht h1 h2 h3 h4
    simp [moveHandler, hs, ht, h1, h2, h3, h4]
  · intro root fs pathArg msg h1
    simp [deleteHandler, h1]
  · intro root fs name parentPath msg h1
    by_cases hn : name = ""
    · exact Or.inl (by simp [createFolderHandler, hn])
    · by_cases hsz : sanitize name = ""
      · exact Or.inl (by simp [createFolderHandler, hn, hsz])
      · exact Or.inr (by simp [createFolderHandler, hn, hsz, h1])
  · intro root fs oldPath newName msg h1
    simp [renameHandler, h1]
  · intro root fs oldPath newName op msg h1 h2
    simp [renameHandler, h1, h2]
  · intro root fs lc rp msg h1
    simp [listHandler, listCore, h1]

/-- Witness for C3 (amended): each resolution-failure branch realised on
concrete inputs against the `fsC3` tree. -/
theorem C3_resolution_failure_no_mutation_witness :
    moveHandler "/storage" fsC3 "../../x" "b" = (fsC3, 403, [])
    ∧ moveHandler "/storage" fsC3 "a" "../../x" = (fsC3, 403, [.stat (pathSegs "/storage/a")])
    ∧ deleteHandler "/storage" fsC3 "../../x" = (fsC3, 500, [])
    ∧ (createFolderHandler "/storage" fsC3 "x" "../.." = (fsC3, 400, [])
       ∨ createFolderHandler "/storage" fsC3 "x" "../.." = (fsC3, 403, []))
    ∧ renameHandler "/storage" fsC3 "../../x" "y" = (fsC3, 500, [])
    ∧ renameHandler "/storage" fsC3 "/storagezz" "y" = (fsC3, 500, [])
    ∧ listHandler "/storage" fsC3 (fun _ _ => 0) "../../x" = .error 500 :=
  ⟨C3_resolution_failure_no_mutation.1 "/storage" fsC3 "../../x" "b"
      "Path traversal attempt detected" (by decide) (by decide) rfl,
   C3_resolution_failure_no_mutation.2.1 "/storage" fsC3 "a" "../../x" "/storage/a"
      "Path traversal attempt detected" (.file 1 0) (by decide) (by decide) rfl (by decide) rfl,
   C3_resolution_failure_no_mutation.2.2.2.1 "/storage" fsC3 "../../x"
      "Path traversal attempt detected" rfl,
   C3_resolution_failure_no_mutation.2.2.2.2.1 "/storage" fsC3 "x" "../.."
      "Path traversal attempt detected" rfl,
   C3_resolution_failure_no_mutation.2.2.2.2.2.1 "/storage" fsC3 "../../x" "y"
      "Path traversal attempt detected" rfl,
   C3_resolution_failure_no_mutation.2.2.2.2.2.2.1 "/storage" fsC3 "/storagezz" "y"
      "/storagezz" "Path traversal attempt detected" rfl rfl,
   C3_resolution_failure_no_mutation.2.2.2.2.2.2.2 "/storage" fsC3 (fun _ _ => 0)
      "../../x" "Path traversal attempt detected" rfl⟩

/-!
## C4 — Move conflict
-/

/-- C4: when the source exists, the target resolves to an existing
directory, and an entry already occupies `targetDir/basename(source)`,
Move returns 409 Conflict, mutates nothing, and performs no rename:
the returned state is the input state and the call trace holds only the
two stats and the existence check. -/
theorem C4_move_conflict (root : String) (fs : FS) (source target sp tp tdp : String)
    (es te : Entry)
    (hs : source ≠ "") (ht : target ≠ "")
    (h1 : safePath root [source] = .ok sp)
    (h2 : fs.stat (pathSegs sp) = some es)
    (h3 : safePath root [target, jsBasename sp] = .ok tp)
    (h4 : safePath root [target] = .ok tdp)
    (h5 : fs.stat (pathSegs tdp) = some te)
    (h6 : te.isDir = true)
    (h7 : fs.exstat (pathSegs tp) = true) :
    moveHandler root fs source target
      = (fs, 409, [.stat (pathSegs sp), .stat (pathSegs tdp), .exstat (pathSegs tp)]) := by
  simp [moveHandler, hs, ht, h1, h2, h3, h4, h5, h6, h7]

/-- A storage tree where `a.txt` exists both under the root and inside
the directory `dst`. -/
def fsC4 : FS :=
  ⟨[([], .dir), (["storage"], .dir), (["storage", "a.txt"], .file 5 0),
    (["storage", "dst"], .dir), (["storage", "dst", "a.txt"], .file 7 0)]⟩

/-- Witness for C4: moving `a.txt` into `dst`, which already holds an
`a.txt`, conflicts with 409 and leaves the tree untouched. -/
theorem C4_move_conflict_witness :
    moveHandler "/storage" fsC4 "a.txt" "dst"
      = (fsC4, 409, [.stat (pathSegs "/storage/a.txt"), .stat (pathSegs "/storage/dst"),
                     .exstat (pathSegs "/storage/dst/a.txt")]) :=
  C4_move_conflict "/storage" fsC4 "a.txt" "dst" "/storage/a.txt" "/storage/dst/a.txt"
    "/storage/dst" (.file 5 0) .dir (by decide) (by decide) rfl (by decide) rfl rfl
    (by decide) rfl (by decide)

/-!
## C7 — the size formatter
-/

/-- C7: `formatSize` scales the byte count by 1024 through the units B,
KB, MB, GB, TB — the unit index is exactly determined by the power-of-1024
bracket the count falls in, the displayed value is exactly
`bytes / 1024 ^ unitIndex`, and scaling stops at TB for arbitrarily large
counts — prints one decimal place, and in particular renders 1536 bytes
as `"1.5 KB"` and 0 bytes as `"0.0 B"`. -/
theorem C7_formatSize_scaling :
    formatSize 1536 = "1.5 KB" ∧ formatSize 0 = "0.0 B"
    ∧ ∀ b : Nat,
        (formatSizeLoop 5 ⟨b, 1⟩ 0).2
          = (if b < 1024 then 0 else if b < 1024 ^ 2 then 1 else if b < 1024 ^ 3 then 2
             else if b < 1024 ^ 4 then 3 else 4)
        ∧ (formatSizeLoop 5 ⟨b, 1⟩ 0).1 = ⟨b, 1024 ^ (formatSizeLoop 5 ⟨b, 1⟩ 0).2⟩
        ∧ formatSize b
            = jsToFixed1 (formatSizeLoop 5 ⟨b, 1⟩ 0).1 ++ " "
              ++ sizeUnits.getD (formatSizeLoop 5 ⟨b, 1⟩ 0).2 "" := by
  refine ⟨by decide, by decide, ?_⟩
  intro b
  refine ⟨?_, ?_, rfl⟩
  · simp only [formatSizeLoop, sizeUnits]
    norm_num
    split_ifs <;> omega
  · simp only [formatSizeLoop, sizeUnits]
    norm_num
    split_ifs <;> simp

/-!
## C10 — no partial listings
-/

/-- If the stat of any listed child fails, the whole `getItemInfo` loop
produces nothing. -/
theorem buildItems_eq_none (root : String) (cur : FPath)
    (statFn : FPath → Option Entry) (names : List String) (n : String)
    (hn : n ∈ names) (h : statFn (cur ++ [n]) = none) :
    buildItems root cur statFn names = none := by
  induction names with
  | nil => cases hn
  | cons m ms ih =>
    rcases List.mem_cons.mp hn with rfl | hm
    · simp [buildItems, h]
    · unfold buildItems
      rw [ih hm]
      cases statFn (cur ++ [m]) <;> rfl

/-- C10: the listing returns no partial results — if stating any single
child of the listed directory fails (for example because the child was
removed between the `readdir` and its `stat`), the entire operation
fails with the generic 500 error and no item sequence is produced. -/
theorem C10_list_no_partial_results (root : String) (lc : String → String → Int)
    (rp cur n : String) (readdirFn : FPath → Option (List String))
    (statFn : FPath → Option Entry) (names : List String)
    (h1 : safePath root [rp] = .ok cur)
    (h2 : readdirFn (pathSegs cur) = some names)
    (h3 : n ∈ names)
    (h4 : statFn (pathSegs cur ++ [n]) = none) :
    listCore root lc rp readdirFn statFn = .error 500 := by
  simp [listCore, h1, h2, buildItems_eq_none root (pathSegs cur) statFn names n h3 h4]

/-- Witness for C10: a directory read that reports a child `ghost` whose
stat then fails makes the listing fail with 500. -/
theorem C10_list_no_partial_results_witness :
    ("ghost" ∈ ["ghost"])
    ∧ listCore "/storage" (fun _ _ => 0) "" (fun _ => some ["ghost"]) (fun _ => none)
        = .error 500 :=
  ⟨by decide,
   C10_list_no_partial_results "/storage" (fun _ _ => 0) "" "/storage" "ghost"
     (fun _ => some ["ghost"]) (fun _ => none) ["ghost"] rfl rfl (by decide) rfl⟩

/-!
## C8 — listing order

The comparator hands ties to `localeCompare`, which is locale-dependent;
it is abstracted as a function `lc` assumed (as JS `sort` requires of a
consistent comparator) to be total and transitive on the non-positive
side.  The insertion sort `jsSort` below stands in for `Array.prototype.sort`.
-/

/-- Membership in an insertion step. -/
theorem mem_jsInsert (le : α → α → Bool) (a x : α) (l : List α) :
    x ∈ jsInsert le a l ↔ x = a ∨ x ∈ l := by
  induction l with
  | nil => simp [jsInsert]
  | cons b bs ih =>
    unfold jsInsert
    by_cases hc : le a b = true ∧ ¬ le b a = true
    · rw [if_pos hc]
      simp [List.mem_cons]
    · rw [if_neg hc]
      simp [List.mem_cons, ih]
      tauto

/-- Inserting into a sorted list keeps it sorted, for a total transitive
Boolean order. -/
theorem jsInsert_pairwise (le : α → α → Bool)
    (htrans : ∀ a b c, le a b = true → le b c = true → le a c = true)
    (htot : ∀ a b, le a b = true ∨ le b a = true)
    (a : α) (l : List α) (h : l.Pairwise (fun x y => le x y = true)) :
    (jsInsert le a l).Pairwise (fun x y => le x y = true) := by
  induction l with
  | nil => simp [jsInsert]
  | cons b bs ih =>
    unfold jsInsert
    rcases List.pairwise_cons.mp h with ⟨hb, hbs⟩
    by_cases hc : le a b = true ∧ ¬ le b a = true
    · rw [if_pos hc]
      refine List.pairwise_cons.mpr ⟨?_, h⟩
      intro x hx
      rcases List.mem_cons.mp hx with rfl | hx2
      · exact hc.1
      · exact htrans a b x hc.1 (hb x hx2)
    · rw [if_neg hc]
      refine List.pairwise_cons.mpr ⟨?_, ih hbs⟩
      intro x hx
      rcases (mem_jsInsert le a x bs).mp hx with rfl | hx2
      · by_cases hab : le x b = true
        · by_contra hbx
          exact hc ⟨hab, hbx⟩
        · rcases htot x b with h2 | h2
          · exact absurd h2 hab
          · exact h2
      · exact hb x hx2

/-- The insertion sort is sorted, for a total transitive Boolean order. -/
theorem jsSort_pairwise (le : α → α → Bool)
    (htrans : ∀ a b c, le a b = true → le b c = true → le a c = true)
    (htot : ∀ a b, le a b = true ∨ le b a = true)
    (l : List α) : (jsSort le l).Pairwise (fun x y => le x y = true) := by
  induction l with
  | nil => simp [jsSort]
  | cons a as ih =>
    exact jsInsert_pairwise le htrans htot a (jsSort le as) ih

/-- Sorting changes no membership. -/
theorem mem_jsSort (le : α → α → Bool) (x : α) (l : List α) :
    x ∈ jsSort le l ↔ x ∈ l := by
  induction l with
  | nil => simp [jsSort]
  | cons a as ih =>
    show x ∈ jsInsert le a (jsSort le as) ↔ _
    rw [mem_jsInsert, ih]
    simp [List.mem_cons]

/-- The group rank the comparator gives an item: directories first. -/
def itemRank (a : ItemInfo) : Nat :=
  if a.type = "directory" then 0 else 1

/-- The comparator order is the lexicographic order on (group rank,
name under `lc`). -/
theorem itemLE_iff (lc : String → String → Int) (a b : ItemInfo) :
    itemLE lc a b = true
      ↔ (itemRank a < itemRank b ∨ (itemRank a = itemRank b ∧ lc a.name b.name ≤ 0)) := by
  unfold itemLE itemCmp itemRank
  by_cases ha : a.type = "directory" <;> by_cases hb : b.type = "directory" <;>
    simp [ha, hb]

/-- C8: every listing that succeeds is ordered with all directories
before all files, and within each of the two groups ascending by name
under the (locale-aware) comparison `lc`. -/
theorem C8_listing_sorted (lc : String → String → Int)
    (htot : ∀ a b : String, lc a b ≤ 0 ∨ lc b a ≤ 0)
    (htrans : ∀ a b c : String, lc a b ≤ 0 → lc b c ≤ 0 → lc a c ≤ 0)
    (root : String) (fs : FS) (rp : String) (items : List ItemInfo)
    (h : listHandler root fs lc rp = .ok items) :
    items.Pairwise (fun a b =>
      (a.type = "directory" ∧ b.type ≠ "directory")
      ∨ ((a.type = "directory" ↔ b.type = "directory") ∧ lc a.name b.name ≤ 0)) := by
  have htransLE : ∀ a b c : ItemInfo,
      itemLE lc a b = true → itemLE lc b c = true → itemLE lc a c = true := by
    intro a b c hab hbc
    rw [itemLE_iff] at hab hbc ⊢
    rcases hab with hab | ⟨hab, hab2⟩ <;> rcases hbc with hbc | ⟨hbc, hbc2⟩
    · exact Or.inl (hab.trans hbc)
    · exact Or.inl (by omega)
    · exact Or.inl (by omega)
    · exact Or.inr ⟨hab.trans hbc, htrans _ _ _ hab2 hbc2⟩
  have htotLE : ∀ a b : ItemInfo, itemLE lc a b = true ∨ itemLE lc b a = true := by
    intro a b
    rw [itemLE_iff, itemLE_iff]
    rcases Nat.lt_trichotomy (itemRank a) (itemRank b) with hr | hr | hr
    · exact Or.inl (Or.inl hr)
    · rcases htot a.name b.name with hn | hn
      · exact Or.inl (Or.inr ⟨hr, hn⟩)
      · exact Or.inr (Or.inr ⟨hr.symm, hn⟩)
    · exact Or.inr (Or.inl hr)
  unfold listHandler listCore at h
  split at h
  · cases h
  · split at h
    · cases h
    · split at h
      · cases h
      · injection h with h
        subst h
        rename_i items0 heq2
        have hp := jsSort_pairwise (itemLE lc) htransLE htotLE items0
        refine hp.imp ?_
        intro a b hab
        rw [itemLE_iff] at hab
        rcases hab with hlt | ⟨heq, hle⟩
        · left
          unfold itemRank at hlt
          by_cases ha : a.type = "directory" <;> by_cases hb : b.type = "directory" <;>
            simp [ha, hb] at hlt ⊢
        · right
          refine ⟨?_, hle⟩
          unfold itemRank at heq
          by_cases ha : a.type = "directory" <;> by_cases hb : b.type = "directory" <;>
            simp [ha, hb] at heq ⊢

/-- A concrete code-point lexicographic strict order on character lists,
used to instantiate the abstract locale comparison in witnesses. -/
def charListLt : List Char → List Char → Bool
  | [], [] => false
  | [], _ :: _ => true
  | _ :: _, [] => false
  | a :: as, b :: bs => if a < b then true else if b < a then false else charListLt as bs

/-- A concrete three-way comparator in the shape of `localeCompare`. -/
def ordLC (a b : String) : Int :=
  if charListLt a.data b.data then -1 else if charListLt b.data a.data then 1 else 0

/-- Asymmetry of the concrete order. -/
theorem charListLt_asymm : ∀ x y, charListLt x y = true → charListLt y x = false := by
  intro x
  induction x with
  | nil =>
    intro y h
    cases y <;> simp [charListLt] at h ⊢
  | cons a as ih =>
    intro y h
    cases y with
    | nil => simp [charListLt] at h
    | cons b bs =>
      simp only [charListLt] at h ⊢
      rcases lt_trichotomy a b with hab | hab | hab
      · simp [hab, asymm hab]
      · subst hab
        simp only [lt_irrefl, if_false] at h ⊢
        exact ih bs h
      · simp [hab, asymm hab] at h

/-- Transitivity of the concrete order. -/
theorem charListLt_trans : ∀ x y z,
    charListLt x y = true → charListLt y z = true → charListLt x z = true := by
  intro x
  induction x with
  | nil =>
    intro y z h1 h2
    cases y with
    | nil => simp [charListLt] at h1
    | cons b bs =>
      cases z with
      | nil => simp [charListLt] at h2
      | cons c cs => simp [charListLt]
  | cons a as ih =>
    intro y z h1 h2
    cases y with
    | nil => simp [charListLt] at h1
    | cons b bs =>
      cases z with
      | nil => simp [charListLt] at h2
      | cons c cs =>
        simp only [charListLt] at h1 h2 ⊢
        rcases lt_trichotomy a b with hab | hab | hab
        · rcases lt_trichotomy b c with hbc | hbc | hbc
          · simp [lt_trans hab hbc]
          · subst hbc; simp [hab]
          · simp [hbc, asymm hbc] at h2
        · subst hab
          rcases lt_trichotomy a c with hac | hac | hac
          · simp [hac]
          · subst hac
            simp only [lt_irrefl, if_false] at h1 h2 ⊢
            exact ih bs cs h1 h2
          · simp [hac, asymm hac] at h2
        · simp [hab, asymm hab] at h1

/-- Connexity of the concrete order: mutually non-less lists are equal. -/
theorem charListLt_connex : ∀ x y,
    charListLt x y = false → charListLt y x = false → x = y := by
  intro x
  induction x with
  | nil =>
    intro y h1 _
    cases y with
    | nil => rfl
    | cons b bs => simp [charListLt] at h1
  | cons a as ih =>
    intro y h1 h2
    cases y with
    | nil => simp [charListLt] at h2
    | cons b bs =>
      simp only [charListLt] at h1 h2
      rcases lt_trichotomy a b with hab | hab | hab
      · simp [hab] at h1
      · subst hab
        simp only [lt_irrefl, if_false] at h1 h2
        rw [ih bs h1 h2]
      · simp [hab] at h2

/-- The concrete comparator is total on the non-positive side. -/
theorem ordLC_le_total : ∀ a b : String, ordLC a b ≤ 0 ∨ ordLC b a ≤ 0 := by
  intro a b
  unfold ordLC
  by_cases h : charListLt a.data b.data = true
  · left; simp [h]
  · right
    by_cases h2 : charListLt b.data a.data = true <;> simp [h, h2]

/-- The concrete comparator is transitive on the non-positive side. -/
theorem ordLC_le_trans : ∀ a b c : String,
    ordLC a b ≤ 0 → ordLC b c ≤ 0 → ordLC a c ≤ 0 := by
  have key : ∀ x y : String, ordLC x y ≤ 0 ↔ charListLt y.data x.data = false := by
    intro x y
    unfold ordLC
    by_cases h1 : charListLt x.data y.data = true
    · simp [h1, charListLt_asymm _ _ h1]
    · by_cases h2 : charListLt y.data x.data = true <;> simp [h1, h2]
  intro a b c hab hbc
  rw [key] at hab hbc ⊢
  by_contra hca
  rw [Bool.not_eq_false] at hca
  by_cases hbc2 : charListLt b.data c.data = true
  · have := charListLt_trans _ _ _ hbc2 hca
    rw [this] at hab
    cases hab
  · have hEq : b.data = c.data :=
      charListLt_connex _ _ (by simpa using hbc2) hbc
    rw [← hEq] at hca
    rw [hca] at hab
    cases hab

/-- Witness for C8: a concrete listing of the root of `fsC4` under the
concrete comparator comes back sorted as claimed. -/
theorem C8_listing_sorted_witness :
    listHandler "/storage" fsC4 ordLC ""
      = .ok [{ name := "dst", type := "directory", size := none, modified := 0, path := "dst" },
             { name := "a.txt", type := "file", size := some "5.0 B", modified := 0,
               path := "a.txt" }]
    ∧ List.Pairwise (fun a b : ItemInfo =>
        (a.type = "directory" ∧ b.type ≠ "directory")
        ∨ ((a.type = "directory" ↔ b.type = "directory") ∧ ordLC a.name b.name ≤ 0))
        [{ name := "dst", type := "directory", size := none, modified := 0, path := "dst" },
         { name := "a.txt", type := "file", size := some "5.0 B", modified := 0,
           path := "a.txt" }] :=
  ⟨rfl,
   C8_listing_sorted ordLC ordLC_le_total ordLC_le_trans "/storage" fsC4 "" _ rfl⟩

/-!
## C9 — create / list / delete round trip
-/

/-- When every listed child stats successfully, the listing loop
produces a full item sequence. -/
theorem buildItems_isSome (root : String) (cur : FPath)
    (statFn : FPath → Option Entry) (names : List String)
    (h : ∀ n ∈ names, (statFn (cur ++ [n])).isSome = true) :
    ∃ items, buildItems root cur statFn names = some items := by
  induction names with
  | nil => exact ⟨[], rfl⟩
  | cons m ms ih =>
    obtain ⟨items, hitems⟩ := ih (fun n hn => h n (List.mem_cons_of_mem m hn))
    obtain ⟨e, he⟩ := Option.isSome_iff_exists.mp (h m (List.mem_cons_self m ms))
    exact ⟨getItemInfo root (cur ++ [m]) m e :: items, by simp [buildItems, he, hitems]⟩

/-- The item built for any listed child belongs to the produced
sequence. -/
theorem buildItems_mem (root : String) (cur : FPath)
    (statFn : FPath → Option Entry) (names : List String) (items : List ItemInfo)
    (n : String) (e : Entry)
    (hb : buildItems root cur statFn names = some items)
    (hn : n ∈ names) (he : statFn (cur ++ [n]) = some e) :
    getItemInfo root (cur ++ [n]) n e ∈ items := by
  induction names generalizing items with
  | nil => cases hn
  | cons m ms ih =>
    unfold buildItems at hb
    cases hsm : statFn (cur ++ [m]) with
    | none => rw [hsm] at hb; cases hb
    | some em =>
      rw [hsm] at hb
      cases hrest : buildItems root cur statFn ms with
      | none => rw [hrest] at hb; cases hb
      | some rest =>
        rw [hrest] at hb
        injection hb with hb
        subst hb
        rcases List.mem_cons.mp hn with rfl | hn2
        · rw [hsm] at he
          injection he with he
          subst he
          exact List.mem_cons_self _ _
        · exact List.mem_cons_of_mem _ (ih rest hrest hn2)

/-- Every produced item is named after one of the listed children. -/
theorem buildItems_name (root : String) (cur : FPath)
    (statFn : FPath → Option Entry) (names : List String) (items : List ItemInfo)
    (it : ItemInfo)
    (hb : buildItems root cur statFn names = some items) (hit : it ∈ items) :
    it.name ∈ names := by
  induction names generalizing items with
  | nil =>
    injection hb with hb
    subst hb
    cases hit
  | cons m ms ih =>
    unfold buildItems at hb
    cases hsm : statFn (cur ++ [m]) with
    | none => rw [hsm] at hb; cases hb
    | some em =>
      rw [hsm] at hb
      cases hrest : buildItems root cur statFn ms with
      | none => rw [hrest] at hb; cases hb
      | some rest =>
        rw [hrest] at hb
        injection hb with hb
        subst hb
        rcases List.mem_cons.mp hit with rfl | hit2
        · exact List.mem_cons_self _ _
        · exact List.mem_cons_of_mem _ (ih rest hrest hit2)

/-- A path whose last segment is `n` above `p` is exactly `p ++ [n]`. -/
theorem eq_append_of_dropLast_getLast (q p : FPath) (n : String)
    (h1 : q.dropLast = p) (h2 : q.getLast? = some n) : q = p ++ [n] := by
  rcases List.eq_nil_or_concat q with rfl | ⟨l, b, rfl⟩
  · cases h2
  · rw [List.concat_eq_append] at h1 h2 ⊢
    rw [List.dropLast_concat] at h1
    rw [List.getLast?_concat] at h2
    injection h2 with h2
    rw [h1, h2]

/-- Every child reported by `readdir` stats successfully in the same
filesystem state. -/
theorem readdir_child_stat (fs : FS) (p : FPath) (names : List String) (n : String)
    (h : fs.readdir p = some names) (hn : n ∈ names) :
    (fs.stat (p ++ [n])).isSome = true := by
  unfold FS.readdir at h
  cases hst : fs.stat p with
  | none => rw [hst] at h; cases h
  | some e =>
    cases e with
    | file sz mt => rw [hst] at h; cases h
    | dir =>
      rw [hst] at h
      injection h with h
      subst h
      obtain ⟨a, ha, hfa⟩ := List.mem_filterMap.mp hn
      have haq : a.1 = p ++ [n] := by
        by_cases hd : a.1.dropLast = p
        · rw [if_pos hd] at hfa
          exact eq_append_of_dropLast_getLast a.1 p n hd hfa
        · rw [if_neg hd] at hfa
          cases hfa
      unfold FS.stat
      have hf : (List.find? (fun e => e.1 = p ++ [n]) fs.entries).isSome = true :=
        List.find?_isSome.mpr ⟨a, ha, by simp [haq]⟩
      cases hff : List.find? (fun e => e.1 = p ++ [n]) fs.entries with
      | none => rw [hff] at hf; cases hf
      | some x => rfl

/-- An entry directly below a directory contributes its name to the
directory listing. -/
theorem readdir_mem (fs : FS) (p : FPath) (names : List String) (n : String)
    (e : Entry)
    (h : fs.readdir p = some names) (hmem : (p ++ [n], e) ∈ fs.entries) :
    n ∈ names := by
  unfold FS.readdir at h
  cases hst : fs.stat p with
  | none => rw [hst] at h; cases h
  | some e2 =>
    cases e2 with
    | file sz mt => rw [hst] at h; cases h
    | dir =>
      rw [hst] at h
      injection h with h
      subst h
      refine List.mem_filterMap.mpr ⟨(p ++ [n], e), hmem, ?_⟩
      simp [List.dropLast_concat, List.getLast?_concat]

/-- Finding a key that none of the prepended entries carries falls
through to the original entries. -/
theorem stat_prepend_not_mem (ds rest : List (FPath × Entry)) (p : FPath)
    (h : ∀ e ∈ ds, e.1 ≠ p) :
    FS.stat ⟨ds ++ rest⟩ p = FS.stat ⟨rest⟩ p := by
  induction ds with
  | nil => rfl
  | cons d ds ih =>
    unfold FS.stat at ih ⊢
    rw [List.cons_append, List.find?_cons_of_neg, ih]
    · exact fun e he => h e (List.mem_cons_of_mem d he)
    · simp [h d (List.mem_cons_self d ds)]

/-- Finding a key that one of the prepended directory entries carries
yields a directory. -/
theorem stat_prepend_dir (ds rest : List (FPath × Entry)) (p : FPath)
    (hmem : (p, Entry.dir) ∈ ds) (hdir : ∀ e ∈ ds, e.2 = Entry.dir) :
    FS.stat ⟨ds ++ rest⟩ p = some .dir := by
  induction ds with
  | nil => cases hmem
  | cons d ds ih =>
    by_cases hd : d.1 = p
    · unfold FS.stat
      rw [List.cons_append, List.find?_cons_of_pos]
      · have : d.2 = Entry.dir := hdir d (List.mem_cons_self d ds)
        simp [this]
      · simp [hd]
    · rcases List.mem_cons.mp hmem with heq | hmem2
      · rw [← heq] at hd
        simp at hd
      · unfold FS.stat at ih ⊢
        rw [List.cons_append, List.find?_cons_of_neg, ih hmem2]
        · exact fun e he => hdir e (List.mem_cons_of_mem d he)
        · simp [hd]

/-- Finding a key in entries filtered by removal below `s`. -/
theorem find_filter_outside (l : List (FPath × Entry)) (s p : FPath) :
    List.find? (fun e => e.1 = p) (List.filter (fun e => ¬ s.isPrefixOf e.1) l)
      = (if s.isPrefixOf p = true then none else List.find? (fun e => e.1 = p) l) := by
  induction l with
  | nil => simp
  | cons a l ih =>
    by_cases hap : a.1 = p
    · by_cases hsp : s.isPrefixOf p = true
      · rw [List.filter_cons_of_neg (by simp [hap, hsp]), ih, if_pos hsp, if_pos hsp]
      · rw [List.filter_cons_of_pos (by simp [hap, hsp]), if_neg hsp,
            List.find?_cons_of_pos _ (by simp [hap]), List.find?_cons_of_pos _ (by simp [hap])]
    · by_cases hsa : s.isPrefixOf a.1 = true
      · rw [List.filter_cons_of_neg (by simp [hsa]), ih]
        by_cases hsp : s.isPrefixOf p = true
        · rw [if_pos hsp, if_pos hsp]
        · rw [if_neg hsp, if_neg hsp, List.find?_cons_of_neg _ (by simp [hap])]
      · rw [List.filter_cons_of_pos (by simp [hsa]), List.find?_cons_of_neg _ (by simp [hap]), ih]
        by_cases hsp : s.isPrefixOf p = true
        · rw [if_pos hsp, if_pos hsp]
        · rw [if_neg hsp, if_neg hsp, List.find?_cons_of_neg _ (by simp [hap])]

/-- The stat of a path after a recursive removal: gone below the removed
root, untouched elsewhere. -/
theorem stat_rmRec (fs : FS) (s p : FPath) :
    (fs.rmRec s).stat p = if s.isPrefixOf p = true then none else fs.stat p := by
  unfold FS.rmRec FS.stat
  rw [find_filter_outside fs.entries s p]
  by_cases hsp : s.isPrefixOf p = true
  · rw [if_pos hsp, if_pos hsp]
    rfl
  · rw [if_neg hsp, if_neg hsp]

/-- C9: for an existing parent directory and a valid name `X` (invariant
under sanitization, non-empty) not already present under it, after
CreateDirectory(parent, X) the listing of the parent includes an entry
named `X` of kind directory, and after a subsequent Delete of
parent/`X` the listing of the parent no longer includes any entry named
`X`.  The path-resolution hypotheses record how the handler resolves the
parent, the new folder path and the deletion path; the ancestor
hypothesis states that no ancestor of the parent is an existing file
(which holds of every well-formed tree containing the parent
directory). -/
theorem C9_create_list_delete_roundtrip
    (root : String) (fs : FS) (lc : String → String → Int)
    (parent X childPath pAbs cAbs : String)
    (hX1 : sanitize X = X) (hX2 : X ≠ "")
    (hpp : safePath root [parent] = .ok pAbs)
    (hp : safePath root [parent, X] = .ok cAbs)
    (hseg : pathSegs cAbs = pathSegs pAbs ++ [X])
    (hdel : safePath root [childPath] = .ok cAbs)
    (hpdir : fs.stat (pathSegs pAbs) = some .dir)
    (hnx : fs.stat (pathSegs pAbs ++ [X]) = none)
    (hanc : ∀ k, ∀ e, fs.stat ((pathSegs pAbs).take k) = some e → e.isDir = true) :
    (createFolderHandler root fs X parent).2.1 = 200
    ∧ (∃ items1, listHandler root (createFolderHandler root fs X parent).1 lc parent
          = .ok items1
        ∧ ∃ it ∈ items1, it.name = X ∧ it.type = "directory")
    ∧ (deleteHandler root (createFolderHandler root fs X parent).1 childPath).2.1 = 200
    ∧ (∃ items2,
        listHandler root
            (deleteHandler root (createFolderHandler root fs X parent).1 childPath).1
            lc parent
          = .ok items2
        ∧ ∀ it ∈ items2, it.name ≠ X) := by
  set P := pathSegs pAbs with hP
  set p := P ++ [X] with hpdef
  -- the recursive-mkdir precondition holds: no ancestor is a file
  have hplen : p.length = P.length + 1 := by simp [hpdef]
  have hchk : ((List.range (p.length + 1)).all
      (fun k => match fs.stat (p.take k) with
                | some e => e.isDir
                | none => true)) = true := by
    rw [List.all_eq_true]
    intro k hk
    rw [List.mem_range] at hk
    rcases Nat.lt_or_ge k p.length with hlt | hge
    · have hkP : k ≤ P.length := by omega
      rw [hpdef, List.take_append_of_le_length hkP]
      cases hstat : fs.stat (P.take k) with
      | none => rfl
      | some e => simpa using hanc k e hstat
    · have hkp : k = p.length := by omega
      rw [hkp, List.take_length, hnx]
  -- the directory entries the recursive mkdir prepends
  set nds := (List.range (p.length + 1)).filterMap
      (fun k =>
        if fs.stat (p.take k) = none ∧ p.take k ≠ [] then some (p.take k, Entry.dir)
        else none) with hnds_def
  have hmk : fs.mkdirRec p = .ok ⟨nds ++ fs.entries⟩ := by
    unfold FS.mkdirRec
    rw [if_pos hchk]
  have hcreate : createFolderHandler root fs X parent
      = (⟨nds ++ fs.entries⟩, 200, [.exstat p, .mkdir p]) := by
    simp [createFolderHandler, hX2, hX1, hp, hseg, FS.exstat, hnx, hmk]
  -- facts about the prepended entries
  have hndsfact : ∀ e ∈ nds, fs.stat e.1 = none ∧ e.2 = Entry.dir := by
    intro e he
    rw [hnds_def] at he
    rcases List.mem_filterMap.mp he with ⟨k, _, hf⟩
    by_cases hc : fs.stat (p.take k) = none ∧ p.take k ≠ []
    · rw [if_pos hc] at hf
      injection hf with hf
      subst hf
      exact ⟨hc.1, rfl⟩
    · rw [if_neg hc] at hf
      cases hf
  have hmemnds : (p, Entry.dir) ∈ nds := by
    rw [hnds_def]
    refine List.mem_filterMap.mpr ⟨p.length, ?_, ?_⟩
    · rw [List.mem_range]
      omega
    · rw [List.take_length, if_pos ⟨hnx, by simp [hpdef]⟩]
  set fs1 : FS := ⟨nds ++ fs.entries⟩ with hfs1
  have hstat1p : fs1.stat p = some .dir :=
    stat_prepend_dir nds fs.entries p hmemnds (fun e he => (hndsfact e he).2)
  have hstat1P : fs1.stat P = some .dir := by
    rw [hfs1, stat_prepend_not_mem nds fs.entries P (fun e he hep => by
      have hne := (hndsfact e he).1
      rw [hep, hpdir] at hne
      cases hne)]
    exact hpdir
  -- listing after the creation
  have hrd1 : fs1.readdir P = some (fs1.entries.filterMap
      (fun e => if e.1.dropLast = P then e.1.getLast? else none)) := by
    unfold FS.readdir
    rw [hstat1P]
  have hXnames : X ∈ fs1.entries.filterMap
      (fun e => if e.1.dropLast = P then e.1.getLast? else none) :=
    readdir_mem fs1 P _ X .dir hrd1 (List.mem_append_left _ hmemnds)
  obtain ⟨items1, hitems1⟩ := buildItems_isSome root P fs1.stat _
    (fun n hn => readdir_child_stat fs1 P _ n hrd1 hn)
  have hmem1 : getItemInfo root (P ++ [X]) X .dir ∈ items1 :=
    buildItems_mem root P fs1.stat _ items1 X .dir hitems1 hXnames hstat1p
  have hlist1 : listHandler root fs1 lc parent = .ok (jsSort (itemLE lc) items1) := by
    simp only [listHandler, listCore, hpp, ← hP, hrd1, hitems1]
  -- deletion of the created directory
  have hdel1 : deleteHandler root fs1 childPath = (fs1.rmRec p, 200, [.stat p, .rm p]) := by
    simp [deleteHandler, hdel, hseg, hstat1p, Entry.isDir]
  have hnotpre : ¬ (List.isPrefixOf p P = true) := by
    intro hpre
    have hle := (List.isPrefixOf_iff_prefix.mp hpre).length_le
    rw [hplen] at hle
    omega
  set fs2 : FS := fs1.rmRec p with hfs2
  have hstat2P : fs2.stat P = some .dir := by
    rw [hfs2, stat_rmRec, if_neg hnotpre]
    exact hstat1P
  have hrd2 : fs2.readdir P = some (fs2.entries.filterMap
      (fun e => if e.1.dropLast = P then e.1.getLast? else none)) := by
    unfold FS.readdir
    rw [hstat2P]
  obtain ⟨items2, hitems2⟩ := buildItems_isSome root P fs2.stat _
    (fun n hn => readdir_child_stat fs2 P _ n hrd2 hn)
  have hlist2 : listHandler root fs2 lc parent = .ok (jsSort (itemLE lc) items2) := by
    simp only [listHandler, listCore, hpp, ← hP, hrd2, hitems2]
  have hnotX : ∀ it ∈ jsSort (itemLE lc) items2, it.name ≠ X := by
    intro it hit hname
    have hin2 : it ∈ items2 := (mem_jsSort (itemLE lc) it items2).mp hit
    have hn2 := buildItems_name root P fs2.stat _ items2 it hitems2 hin2
    rw [hname] at hn2
    rcases List.mem_filterMap.mp hn2 with ⟨e, he, hfe⟩
    by_cases hd : e.1.dropLast = P
    · rw [if_pos hd] at hfe
      have heq : e.1 = P ++ [X] := eq_append_of_dropLast_getLast e.1 P X hd hfe
      have hmf := (List.mem_filter.mp he).2
      rw [heq] at hmf
      simp only [← hpdef] at hmf
      have : List.isPrefixOf p p = true := List.isPrefixOf_iff_prefix.mpr (List.prefix_refl p)
      simp [this] at hmf
    · rw [if_neg hd] at hfe
      cases hfe
  -- assemble the four parts
  rw [hcreate]
  dsimp only
  refine ⟨rfl, ?_, ?_, ?_⟩
  · refine ⟨jsSort (itemLE lc) items1, hlist1, getItemInfo root (P ++ [X]) X .dir, ?_, rfl, rfl⟩
    exact (mem_jsSort (itemLE lc) _ items1).mpr hmem1
  · rw [hdel1]
  · rw [hdel1]
    dsimp only
    exact ⟨jsSort (itemLE lc) items2, hlist2, hnotX⟩

/-- Witness for C9: creating `photos` under the root of a fresh tree,
listing, deleting it and listing again, with every hypothesis discharged
concretely. -/
theorem C9_create_list_delete_roundtrip_witness :
    (createFolderHandler "/storage" fsRootOnly "photos" "").2.1 = 200
    ∧ (∃ items1,
        listHandler "/storage" (createFolderHandler "/storage" fsRootOnly "photos" "").1
            ordLC ""
          = .ok items1
        ∧ ∃ it ∈ items1, it.name = "photos" ∧ it.type = "directory")
    ∧ (deleteHandler "/storage" (createFolderHandler "/storage" fsRootOnly "photos" "").1
        "photos").2.1 = 200
    ∧ (∃ items2,
        listHandler "/storage"
            (deleteHandler "/storage"
              (createFolderHandler "/storage" fsRootOnly "photos" "").1 "photos").1
            ordLC ""
          = .ok items2
        ∧ ∀ it ∈ items2, it.name ≠ "photos") := by
  refine C9_create_list_delete_roundtrip "/storage" fsRootOnly ordLC "" "photos" "photos"
    "/storage" "/storage/photos" (by decide) (by decide) rfl rfl (by decide) rfl
    (by decide) (by decide) ?_
  intro k e h
  rw [show pathSegs "/storage" = ["storage"] from rfl] at h
  cases k with
  | zero =>
    rw [List.take_zero] at h
    rw [show fsRootOnly.stat [] = some Entry.dir from rfl] at h
    injection h with h
    rw [← h]
    rfl
  | succ k =>
    rw [List.take_succ_cons, List.take_nil] at h
    rw [show fsRootOnly.stat ["storage"] = some Entry.dir from rfl] at h
    injection h with h
    rw [← h]
    rfl
